import Mathlib

/-!
Verification of the changesets release action (source: `src/run.ts`, `src/gitUtils.ts`).

The TypeScript source is shallowly embedded: strings are `List Char` /
`String`, the JS regular expressions used by the code are modelled by
explicit backtracking matchers with JS semantics (leftmost match, greedy /
lazy quantifiers), JS numbers holding integers are modelled as `Int`,
fallible paths return `Except`/`Option`, and interactions with external
collaborators (GitHub API, git subprocesses, the file system) are modelled
as explicit parameters and returned action traces.
-/

namespace ChangesetsAction

/-! ### JS character classes (as used by `\s`, `.`, multiline anchors) -/

/-- JS `\s` whitespace class (ASCII part: space, tab, LF, VT, FF, CR). -/
def isWS (c : Char) : Bool :=
  c = ' ' || c = '\t' || c = '\n' || c = Char.ofNat 11 || c = Char.ofNat 12 || c = '\r'

/-- JS line terminators (`\n`, `\r`), which `.` does not match and which
`^`/`$` anchor around in multiline mode. -/
def isNL (c : Char) : Bool := c = '\n' || c = '\r'

/-- Decimal digit, JS `\d`. -/
def isDigitC (c : Char) : Bool := '0' ≤ c && c ≤ '9'

/-! ### Frontmatter codec (`getPullFrontmatterData` / `createPullFrontmatter`)

`getPullFrontmatterData` matches `/\s*---([^]*?)\n\s*---\s*\n/` against the
pull-request body and scans the captured block line by line for
`/^draft_id:(.+)/` and `/^checksum:(.+)/`. -/

/-- Does the list start with the literal `---`? -/
def startsWithDash3 : List Char → Bool
  | a :: b :: c :: _ => a = '-' && b = '-' && c = '-'
  | _ => false

/-- Does the closing delimiter `\n\s*---\s*\n` of the frontmatter regex match
a prefix of `cs`?  After the `\n`, the greedy `\s*` must consume the whole
whitespace run (no whitespace char can match the following `-`), and the
final `\s*\n` succeeds iff the whitespace run after `---` contains a `\n`. -/
def closerMatches : List Char → Bool
  | [] => false
  | c :: rest =>
    if c = '\n' then
      let r2 := rest.dropWhile isWS
      if startsWithDash3 r2 then ((r2.drop 3).takeWhile isWS).contains '\n'
      else false
    else false

/-- The lazy capture `([^]*?)` of the frontmatter regex: the shortest prefix
of `cs` whose remainder starts with the closing delimiter. -/
def lazyCapture : List Char → Option (List Char)
  | [] => none
  | c :: rest =>
    if closerMatches (c :: rest) then some []
    else (lazyCapture rest).map (c :: ·)

/-- Leftmost match of `/\s*---([^]*?)\n\s*---\s*\n/`, returning the capture
group.  The leading `\s*` never changes which `---` opens the match, so we
scan for the leftmost `---` whose lazy capture succeeds. -/
def findFrontmatterCapture : List Char → Option (List Char)
  | [] => none
  | c :: rest =>
    if startsWithDash3 (c :: rest) then
      match lazyCapture ((c :: rest).drop 3) with
      | some cap => some cap
      | none => findFrontmatterCapture rest
    else findFrontmatterCapture rest

/-- JS `String.prototype.split("\n")` (keeps empty fields). -/
def splitNL : List Char → List (List Char)
  | [] => [[]]
  | c :: rest =>
    if c = '\n' then [] :: splitNL rest
    else
      match splitNL rest with
      | [] => [[c]]
      | l :: ls => (c :: l) :: ls

/-- Match `/^key(.+)/` against a single line: the greedy `(.+)` takes the
maximal run of non-line-terminator characters and must be nonempty. -/
def lineValue (key : List Char) (line : List Char) : Option (List Char) :=
  if key.isPrefixOf line then
    let cap := (line.drop key.length).takeWhile (fun c => !(isNL c))
    if cap.isEmpty then none else some cap
  else none

/-- JS `String.prototype.trim()`. -/
def jsTrim (cs : List Char) : List Char :=
  ((cs.dropWhile isWS).reverse.dropWhile isWS).reverse

/-- Value of a list of decimal digit characters. -/
def decDigitsVal (ds : List Char) : Nat :=
  ds.foldl (fun a c => a * 10 + (c.toNat - 48)) 0

def isHexDigitC (c : Char) : Bool :=
  isDigitC c || ('a' ≤ c && c ≤ 'f') || ('A' ≤ c && c ≤ 'F')

def hexDigitVal (c : Char) : Nat :=
  if isDigitC c then c.toNat - 48
  else if 'a' ≤ c && c ≤ 'f' then c.toNat - 87
  else c.toNat - 55

def hexDigitsVal (ds : List Char) : Nat :=
  ds.foldl (fun a c => a * 16 + hexDigitVal c) 0

/-- Sign handling of JS `parseInt`: a single leading `+`/`-` is consumed. -/
def jsParseIntSign : List Char → Int × List Char
  | [] => (1, [])
  | c :: r =>
    if c = '-' then (-1, r)
    else if c = '+' then (1, r)
    else (1, c :: r)

/-- Digit parsing of JS `parseInt` after sign handling: `0x`/`0X` switches
to hexadecimal, otherwise the maximal decimal-digit prefix is taken; no
digits means `NaN` (`none`). -/
def jsParseIntDigitsPart (sgn : Int) (s1 : List Char) : Option Int :=
  if ['0', 'x'].isPrefixOf s1 || ['0', 'X'].isPrefixOf s1 then
    let hs := (s1.drop 2).takeWhile isHexDigitC
    if hs.isEmpty then none else some (sgn * (hexDigitsVal hs : Int))
  else
    let ds := s1.takeWhile isDigitC
    if ds.isEmpty then none else some (sgn * (decDigitsVal ds : Int))

/-- JS `parseInt(s)` (radix unspecified): skip whitespace, optional sign,
`0x`/`0X` switches to hexadecimal, parse the maximal digit prefix, `NaN`
(here `none`) if there is none.  JS numbers are idealized as exact
integers. -/
def jsParseInt (cs : List Char) : Option Int :=
  let s := cs.dropWhile isWS
  jsParseIntDigitsPart (jsParseIntSign s).1 (jsParseIntSign s).2

/-- Decoded frontmatter: `draft_id` survives only if it parsed as a number,
`checksum` is kept as the trimmed raw value. -/
structure FrontmatterData where
  draftId : Option Int
  checksum : Option String
deriving DecidableEq, Repr

/-- One step of the line scan in `getPullFrontmatterData`: `draft_id` lines
assign `parseInt(value.trim())` (possibly NaN, modelled `some none`),
`checksum` lines assign the trimmed value; later lines win. -/
def scanFrontLine (st : Option (Option Int) × Option (List Char)) (line : List Char) :
    Option (Option Int) × Option (List Char) :=
  match lineValue ("draft_id:".data) line with
  | some v => (some (jsParseInt (jsTrim v)), st.2)
  | none =>
    match lineValue ("checksum:".data) line with
    | some v => (st.1, some (jsTrim v))
    | none => st

/-- `getPullFrontmatterData` from `src/run.ts`. -/
def getPullFrontmatterData (pullBody : String) : Option FrontmatterData :=
  match findFrontmatterCapture pullBody.data with
  | none => none
  | some frontmatterContent =>
    let st := (splitNL frontmatterContent).foldl scanFrontLine (none, none)
    some
      { draftId := match st.1 with | some (some n) => some n | _ => none
        checksum := st.2.map String.mk }

/-- Decimal digits of a natural number, fuel-based (any fuel above the
digit count gives the same result; `natChars` passes `n + 1`). -/
def natCharsCore : Nat → Nat → List Char → List Char
  | 0, _, acc => acc
  | fuel + 1, n, acc =>
    if n < 10 then Nat.digitChar n :: acc
    else natCharsCore fuel (n / 10) (Nat.digitChar (n % 10) :: acc)

/-- Decimal digits of a natural number (JS number-to-string for integers). -/
def natChars (n : Nat) : List Char := natCharsCore (n + 1) n []

/-- JS template-literal rendering of an integer-valued number. -/
def intChars (d : Int) : List Char :=
  if d < 0 then '-' :: natChars d.natAbs else natChars d.toNat

/-- `createPullFrontmatter` from `src/run.ts`. -/
def createPullFrontmatter (draftId : Int) (checksum : String) : String :=
  "---\ndraft_id: " ++ String.mk (intChars draftId) ++ "\nchecksum: " ++ checksum ++ "\n---"

/-- Does `cs` contain `---` as a substring? -/
def containsDash3 : List Char → Bool
  | [] => false
  | c :: rest => startsWithDash3 (c :: rest) || containsDash3 rest

/-! ### Changelog extractor (`getLatestChangelogEntry`)

The code statefully runs `/^## \d+\.\d+\.\d+/gm` twice to find the start of
the newest section and of the following one, slices between them, and then
matches `/## (.+)\s*$/m` on the slice to split version from content. -/

/-- Match `## \d+\.\d+\.\d+` at the head of `cs`; returns the match length.
Each greedy `\d+` must take a maximal digit run (a digit cannot match the
following `.`). -/
def matchVersionHeader (cs : List Char) : Option Nat :=
  match cs with
  | a :: b :: sp :: r =>
    if a = '#' && b = '#' && sp = ' ' then
      let d1 := r.takeWhile isDigitC
      if d1.isEmpty then none
      else if (r.drop d1.length).head? = some '.' then
        let r2 := (r.drop d1.length).tail
        let d2 := r2.takeWhile isDigitC
        if d2.isEmpty then none
        else if (r2.drop d2.length).head? = some '.' then
          let r3 := (r2.drop d2.length).tail
          let d3 := r3.takeWhile isDigitC
          if d3.isEmpty then none
          else some (3 + d1.length + 1 + d2.length + 1 + d3.length)
        else none
      else none
    else none
  | _ => none

/-- Scan for the leftmost multiline-anchored version-header match; `i` is the
index of the head of the remaining list, `anch` whether `^` matches there. -/
def goHeader : List Char → Nat → Bool → Option (Nat × Nat)
  | [], _, _ => none
  | c :: rest, i, anch =>
    if anch then
      match matchVersionHeader (c :: rest) with
      | some len => some (i, len)
      | none => goHeader rest (i + 1) (isNL c)
    else goHeader rest (i + 1) (isNL c)

/-- Does the multiline `^` match at index `i` of `cs`? -/
def anchorAt (cs : List Char) (i : Nat) : Bool :=
  i == 0 ||
    (match cs[i - 1]? with
     | some c => isNL c
     | none => false)

/-- One `exec` of the stateful `/^## \d+\.\d+\.\d+/gm` starting at `start`:
returns (match index, match length). -/
def execVersionHeader (cs : List Char) (start : Nat) : Option (Nat × Nat) :=
  goHeader (cs.drop start) start (anchorAt cs start)

/-- Largest number of whitespace characters the greedy `\s*` before `$` can
consume such that `$` (end of string or before a line terminator) matches. -/
def dollarK (cs : List Char) : Nat :=
  let run := cs.takeWhile isWS
  if run.length = cs.length then cs.length
  else (lastNLIdx run).getD 0
where
  /-- Index of the last line terminator of the list, if any. -/
  lastNLIdx : List Char → Option Nat
    | [] => none
    | c :: rest =>
      match lastNLIdx rest with
      | some i => some (i + 1)
      | none => if isNL c then some 0 else none

/-- Match `/## (.+)\s*$/m` at the head of `cs`: greedy `(.+)` takes the
maximal run of non-terminator characters after `## `; returns
(length of the whole match, capture). -/
def matchHeaderLineAt (cs : List Char) : Option (Nat × List Char) :=
  match cs with
  | a :: b :: sp :: r =>
    if a = '#' && b = '#' && sp = ' ' then
      let cap := r.takeWhile (fun c => !(isNL c))
      if cap.isEmpty then none
      else some (3 + cap.length + dollarK (r.drop cap.length), cap)
    else none
  | _ => none

/-- Leftmost match of `/## (.+)\s*$/m` anywhere in the slice. -/
def findHeaderLineMatch : List Char → Option (Nat × List Char)
  | [] => none
  | c :: rest =>
    match matchHeaderLineAt (c :: rest) with
    | some r => some r
    | none => findHeaderLineMatch rest

/-- Anchor state of the multiline scan after passing over `region`. -/
def anchAfter (a : Bool) : List Char → Bool
  | [] => a
  | c :: rest => anchAfter (isNL c) rest

/-- No anchored version-header match starts inside `region` when the text
continues with `tail` (used to say a changelog body contains no `## x.y.z`
section header of its own); `a` is whether the region starts at a line
start. -/
def regionHeaderFree (a : Bool) : List Char → List Char → Bool
  | [], _ => true
  | c :: rest, tail =>
    (!a || (matchVersionHeader (c :: rest ++ tail)).isNone) &&
      regionHeaderFree (isNL c) rest tail

structure ChangelogEntry where
  version : String
  content : String
deriving DecidableEq, Repr

/-- `getLatestChangelogEntry` from `src/run.ts`.  The source asserts both
regex matches with `!`; a missing match is modelled as `none`. -/
def getLatestChangelogEntry (changelog : String) : Option ChangelogEntry :=
  let cs := changelog.data
  match execVersionHeader cs 0 with
  | none => none
  | some (start, len) =>
    let endIdx :=
      match execVersionHeader cs (start + len) with
      | some (e, _) => e
      | none => cs.length
    let entry := (cs.drop start).take (endIdx - start)
    match findHeaderLineMatch entry with
    | none => none
    | some (m0len, versionCap) =>
      some ⟨String.mk versionCap, String.mk (jsTrim (entry.drop m0len))⟩

/-! ### Publish matcher, multi-package (`runPublish`, `tool !== "root"`)

Per stdout line the code matches
`/New tag:\s+(@[^/]+\/[^@]+|[^/]+)@([^\s]+)/` and looks the captured name up
in a map built from the workspace packages. -/

/-- Greedy `X+` with full backtracking: try the longest nonempty prefix of
`p`-characters first, passing (consumed, remainder) to the continuation of
the rest of the pattern. -/
def greedyPlusGo {β : Type} (cs : List Char) (k : List Char → List Char → Option β) :
    Nat → Option β
  | 0 => none
  | n + 1 =>
    match k (cs.take (n + 1)) (cs.drop (n + 1)) with
    | some r => some r
    | none => greedyPlusGo cs k n

def greedyPlus {β : Type} (p : Char → Bool) (cs : List Char)
    (k : List Char → List Char → Option β) : Option β :=
  greedyPlusGo cs k (cs.takeWhile p).length

/-- The scoped alternative `@[^/]+\/[^@]+` of the name group. -/
def matchScopedName {β : Type} (cs : List Char) (k : List Char → List Char → Option β) :
    Option β :=
  match cs with
  | '@' :: cs1 =>
    greedyPlus (fun c => !(c = '/')) cs1 (fun t1 r1 =>
      match r1 with
      | '/' :: cs2 =>
        greedyPlus (fun c => !(c = '@')) cs2 (fun t2 r2 => k ('@' :: (t1 ++ '/' :: t2)) r2)
      | _ => none)
  | _ => none

/-- The name group `(@[^/]+\/[^@]+|[^/]+)`: the scoped alternative is tried
(and fully backtracked) before the bare one. -/
def matchNameAlt {β : Type} (cs : List Char) (k : List Char → List Char → Option β) :
    Option β :=
  match matchScopedName cs k with
  | some r => some r
  | none => greedyPlus (fun c => !(c = '/')) cs k

/-- Match `\s+(@[^/]+\/[^@]+|[^/]+)@([^\s]+)` against `cs` (the text after
the literal `New tag:`); returns (name, version) captures. -/
def matchNewTagAt (cs : List Char) : Option (List Char × List Char) :=
  greedyPlus isWS cs (fun _ r1 =>
    matchNameAlt r1 (fun nm r2 =>
      match r2 with
      | '@' :: r3 => greedyPlus (fun c => !(isWS c)) r3 (fun ver _ => some (nm, ver))
      | _ => none))

/-- Leftmost match of the full `New tag:` regex in a line. -/
def matchNewTagLine : List Char → Option (List Char × List Char)
  | [] => none
  | c :: rest =>
    if ("New tag:".data).isPrefixOf (c :: rest) then
      match matchNewTagAt ((c :: rest).drop 8) with
      | some r => some r
      | none => matchNewTagLine rest
    else matchNewTagLine rest

/-- A workspace package (the fields of `pkg.packageJson` the code reads). -/
structure Pkg where
  name : String
  version : String
deriving DecidableEq, Repr

/-- Lookup in `new Map(packages.map((x) => [x.packageJson.name, x]))`:
for duplicate names the later entry wins. -/
def lookupPkg (packages : List Pkg) (name : String) : Option Pkg :=
  packages.reverse.find? (fun p => p.name == name)

/-- JS `stdout.split("\n")`. -/
def splitLinesStr (s : String) : List String :=
  (splitNL s.data).map String.mk

/-- The multi-package scan loop of `runPublish`: per line, on a regex match
look the package up (a missing name throws) and append it. -/
def collectReleasedPackages (packages : List Pkg) : List String → Except String (List Pkg)
  | [] => .ok []
  | line :: rest =>
    match matchNewTagLine line.data with
    | none => collectReleasedPackages packages rest
    | some (nm, _ver) =>
      match lookupPkg packages (String.mk nm) with
      | none =>
        .error ("Package \"" ++ String.mk nm ++
          "\" not found.This is probably a bug in the action, please open an issue")
      | some pkg => (collectReleasedPackages packages rest).map (fun l => pkg :: l)

/-- The released-package computation of the multi-package branch of
`runPublish`. -/
def runPublishMultiMatch (stdout : String) (packages : List Pkg) : Except String (List Pkg) :=
  collectReleasedPackages packages (splitLinesStr stdout)

/-- Names matched by the `New tag:` regex across the stdout lines, in order
(specification-side characterization used in the statements). -/
def matchedTagNames (lines : List String) : List String :=
  lines.filterMap (fun l => (matchNewTagLine l.data).map (fun r => String.mk r.1))

/-! ### PR association resolver (`runPublish`, sorting of associated pulls) -/

/-- A pull request as the resolver sees it: `merged_at` is modelled as the
timestamp value of `new Date(merged_at)` (absent for an unmerged PR). -/
structure Pull where
  number : Nat
  mergedAt : Option Nat
deriving DecidableEq, Repr

/-- The comparator passed to `pulls.sort` in `runPublish`. -/
def pullCompare (a b : Pull) : Int :=
  match a.mergedAt, b.mergedAt with
  | none, none => 0
  | none, some _ => 1
  | some _, none => -1
  | some x, some y => if x > y then 1 else if x < y then -1 else 0

/-- The ordering induced by the comparator (`compare(a, b) <= 0` puts `a`
before `b`). -/
def pullLe (a b : Pull) : Prop := pullCompare a b ≤ 0

instance : DecidableRel pullLe := fun a b => by unfold pullLe; infer_instance

instance : IsTotal Pull pullLe := by
  constructor
  intro a b
  unfold pullLe pullCompare
  rcases a.mergedAt with _ | x <;> rcases b.mergedAt with _ | y <;> simp <;> omega

instance : IsTrans Pull pullLe := by
  constructor
  intro a b c
  unfold pullLe pullCompare
  rcases a.mergedAt with _ | x <;> rcases b.mergedAt with _ | y <;>
    rcases c.mergedAt with _ | z <;> simp <;>
    (repeat' split) <;> omega

/-- `pulls.sort(comparator)[0] || null` from `runPublish`: index 0 of the
sorted candidates, or none for an empty list.  (A comparator sort is
modelled by a stable insertion sort over the induced ordering.) -/
def selectAssociatedPull (pulls : List Pull) : Option Pull :=
  (pulls.insertionSort pullLe).head?

/-! ### Changeset commit locator (`getLatestChangesetVersionCommit`)

The git collaborators are modelled explicitly: `history` lists, newest
first, whether each commit of the full remote history deletes change
descriptor files; `depth` is how many of those commits the local shallow
clone has fetched.  `git log` searches the fetched window, `git rev-parse
--is-shallow-repository` is `depth < history.length`, and
`deepenCloneBy({by: 50})` fetches 50 more commits. -/

/-- Index of the first `true` (the newest matching commit), if any. -/
def firstTrueIdx : List Bool → Option Nat
  | [] => none
  | b :: rest => if b then some 0 else (firstTrueIdx rest).map (· + 1)

/-- `git log --max-count=1 --diff-filter=D -- .changeset/*.md` over the
fetched window: newest commit (by index) deleting changeset files. -/
def queryDeletionCommit (history : List Bool) (depth : Nat) : Option Nat :=
  firstTrueIdx (history.take depth)

/-- The deepening retry loop of `getLatestChangesetVersionCommit`; also
counts how many times the clone was deepened. -/
def getLatestChangesetVersionCommit (history : List Bool) (depth : Nat) : Option Nat × Nat :=
  match queryDeletionCommit history depth with
  | some c => (some c, 0)
  | none =>
    if h : depth < history.length then
      let r := getLatestChangesetVersionCommit history (depth + 50)
      (r.1, r.2 + 1)
    else (none, 0)
termination_by history.length - depth
decreasing_by simp_wf; omega

/-! ### Single-package publish path (`runPublish`, `tool === "root"`) and
`createRelease`

The file system and the GitHub API are modelled explicitly:
`changelogFile` is the content of `<pkg.dir>/CHANGELOG.md` (`none` when the
file is missing, i.e. `fs.readFile` throws `ENOENT`), and the helper
`getChangelogEntry` (imported from `./utils`, whose source is not part of
this repository snapshot) is a parameter. -/

/-- A release created through the GitHub API. -/
structure CreatedRelease where
  name : String
  tagName : String
  body : String
  prerelease : Bool
deriving DecidableEq, Repr

/-- `createRelease` from `src/run.ts`: a missing changelog file (`ENOENT`) is
swallowed and no release is created; a changelog without an entry for the
package version throws; otherwise a release is created from the entry. -/
def createRelease (getChangelogEntry : String → String → Option ChangelogEntry)
    (changelogFile : Option String) (pkg : Pkg) (tagName : String) :
    Except String (Option CreatedRelease) :=
  match changelogFile with
  | none => .ok none
  | some changelog =>
    match getChangelogEntry changelog pkg.version with
    | none => .error ("Could not find changelog entry for " ++ pkg.name ++ "@" ++ pkg.version)
    | some entry =>
      .ok (some
        { name := tagName
          tagName := tagName
          body := entry.content
          prerelease := pkg.version.data.contains '-' })

/-- Does a line contain the literal `New tag:` (the single-package regex
`/New tag:/`)? -/
def containsNewTag (line : String) : Bool :=
  go line.data
where
  go : List Char → Bool
    | [] => false
    | c :: rest => ("New tag:".data).isPrefixOf (c :: rest) || go rest

/-- The line scan of the single-package branch: on the first line containing
`New tag:` the (single) package is pushed, `createRelease` runs, and the
loop breaks.  Returns (released packages, `createRelease` invocations as
(pkg, tagName), releases actually created on the host). -/
def runPublishRootLoop (cr : Except String (Option CreatedRelease)) (pkg : Pkg)
    (tagName : String) : List String → Except String (List Pkg × List (Pkg × String) × List CreatedRelease)
  | [] => .ok ([], [], [])
  | line :: rest =>
    if containsNewTag line then
      match cr with
      | .error e => .error e
      | .ok created => .ok ([pkg], [(pkg, tagName)], created.toList)
    else runPublishRootLoop cr pkg tagName rest

/-- The result value of `runPublish`. -/
inductive PublishResult
  | published (packages : List (String × String))
  | notPublished
deriving DecidableEq, Repr

/-- The single-package (root workspace) branch of `runPublish`, lines
213–247 of `src/run.ts`: require a nonempty package list, scan the publish
stdout, and report the released package (name, version) pairs. -/
def runPublishRoot (getChangelogEntry : String → String → Option ChangelogEntry)
    (changelogFile : Option String) (stdout : String) (packages : List Pkg) :
    Except String (List Pkg × List (Pkg × String) × List CreatedRelease × PublishResult) :=
  match packages with
  | [] => .error "No package found.This is probably a bug in the action, please open an issue"
  | pkg :: _ =>
    let tagName := "v" ++ pkg.version
    match runPublishRootLoop (createRelease getChangelogEntry changelogFile pkg tagName)
        pkg tagName (splitLinesStr stdout) with
    | .error e => .error e
    | .ok (rel, calls, created) =>
      .ok (rel, calls, created,
        if rel.isEmpty then PublishResult.notPublished
        else PublishResult.published (rel.map (fun p => (p.name, p.version))))

/-! ### Checksum guard (`runVersion`, reconciliation of a tracked draft
release, lines 386–415 of `src/run.ts`) -/

/-- A release object on the host. -/
structure Release where
  id : Int
  name : String
  tagName : String
  body : String
  draft : Bool
deriving DecidableEq, Repr

/-- The tracked-release branch of `runVersion`: with stored `(draftId,
checksum)` decoded from the open versioning PR and the live draft release
fetched by `draftId`, compare `md5(draftRelease.body)` with the stored
checksum; on a match overwrite the release with the fresh changelog content
and re-embed a checksum over the updated body, otherwise leave the release
alone and re-embed the stored pair.  The hash is a parameter (the code uses
node's `crypto` md5); the host echoes the updated release back.  Returns the
release as left on the host and the re-embedded `(draftId, checksum)`. -/
def reconcileTrackedRelease (hash : String → String) (draftId : Int) (checksum : String)
    (draftRelease : Release) (latestVersion latestContent : String) :
    Release × Int × String :=
  let releaseContentHash := hash draftRelease.body
  if releaseContentHash = checksum then
    let updatedRelease : Release :=
      { draftRelease with
        draft := true
        name := "v" ++ latestVersion
        tagName := "v" ++ latestVersion
        body := latestContent }
    (updatedRelease, draftId, hash updatedRelease.body)
  else
    (draftRelease, draftId, checksum)

/-! ## Supporting lemmas -/

lemma isDigitC_not_ws {c : Char} (h : isDigitC c = true) : isWS c = false := by
  by_contra hws
  simp only [Bool.not_eq_false, isWS, Bool.or_eq_true, decide_eq_true_eq] at hws
  rcases hws with ((((h1 | h1) | h1) | h1) | h1) | h1 <;> subst h1 <;> revert h <;> decide

lemma isDigitC_not_nl {c : Char} (h : isDigitC c = true) : isNL c = false := by
  by_contra hnl
  simp only [Bool.not_eq_false, isNL, Bool.or_eq_true, decide_eq_true_eq] at hnl
  rcases hnl with h1 | h1 <;> subst h1 <;> revert h <;> decide

lemma isDigitC_ne {c : Char} (h : isDigitC c = true) :
    c ≠ '-' ∧ c ≠ '+' ∧ c ≠ '\n' ∧ c ≠ '/' ∧ c ≠ '#' := by
  refine ⟨?_, ?_, ?_, ?_, ?_⟩ <;> rintro rfl <;> revert h <;> decide

lemma digitChar_isDigit {n : Nat} (h : n < 10) : isDigitC (Nat.digitChar n) = true := by
  interval_cases n <;> decide

lemma digitChar_toNat {n : Nat} (h : n < 10) : (Nat.digitChar n).toNat = 48 + n := by
  interval_cases n <;> decide

lemma natCharsCore_irrel (n : Nat) : ∀ f1 f2 acc, n < f1 → n < f2 →
    natCharsCore f1 n acc = natCharsCore f2 n acc := by
  induction n using Nat.strong_induction_on with
  | _ n ih =>
    intro f1 f2 acc h1 h2
    match f1, f2 with
    | g1 + 1, g2 + 1 =>
      simp only [natCharsCore]
      by_cases h : n < 10
      · simp [h]
      · simp only [h, if_false]
        have hdiv : n / 10 < n := Nat.div_lt_self (by omega) (by omega)
        exact ih (n / 10) hdiv g1 g2 _ (by omega) (by omega)

lemma natCharsCore_append : ∀ fuel n acc,
    natCharsCore fuel n acc = natCharsCore fuel n [] ++ acc := by
  intro fuel
  induction fuel with
  | zero => intro n acc; rfl
  | succ g ih =>
    intro n acc
    simp only [natCharsCore]
    by_cases h : n < 10
    · simp [h]
    · simp only [h, if_false]
      rw [ih (n / 10) (Nat.digitChar (n % 10) :: acc), ih (n / 10) [Nat.digitChar (n % 10)]]
      simp

lemma natChars_lt {n : Nat} (h : n < 10) : natChars n = [Nat.digitChar n] := by
  rw [natChars]
  simp [natCharsCore, h]

lemma natChars_ge {n : Nat} (h : ¬n < 10) :
    natChars n = natChars (n / 10) ++ [Nat.digitChar (n % 10)] := by
  conv_lhs => rw [natChars]
  rw [show natCharsCore (n + 1) n [] =
      natCharsCore n (n / 10) [Nat.digitChar (n % 10)] by simp [natCharsCore, h]]
  rw [natCharsCore_append]
  have hdiv : n / 10 < n := Nat.div_lt_self (by omega) (by omega)
  rw [natCharsCore_irrel (n / 10) n (n / 10 + 1) [] (by omega) (by omega)]
  rfl

lemma natChars_ne_nil (n : Nat) : natChars n ≠ [] := by
  by_cases h : n < 10
  · rw [natChars_lt h]; simp
  · rw [natChars_ge h]; simp

lemma mem_natChars_digit (n : Nat) : ∀ c ∈ natChars n, isDigitC c = true := by
  induction n using Nat.strong_induction_on with
  | _ n ih =>
    intro c hc
    by_cases h : n < 10
    · rw [natChars_lt h] at hc
      simp at hc
      subst hc
      exact digitChar_isDigit h
    · rw [natChars_ge h] at hc
      simp at hc
      rcases hc with hc | hc
      · exact ih _ (Nat.div_lt_self (by omega) (by omega)) c hc
      · subst hc
        exact digitChar_isDigit (Nat.mod_lt _ (by omega))

lemma decDigitsVal_append_single (xs : List Char) (c : Char) :
    decDigitsVal (xs ++ [c]) = decDigitsVal xs * 10 + (c.toNat - 48) := by
  simp [decDigitsVal, List.foldl_append]

lemma decDigitsVal_natChars (n : Nat) : decDigitsVal (natChars n) = n := by
  induction n using Nat.strong_induction_on with
  | _ n ih =>
    by_cases h : n < 10
    · rw [natChars_lt h]
      simp [decDigitsVal, digitChar_toNat h]
    · rw [natChars_ge h, decDigitsVal_append_single,
        ih _ (Nat.div_lt_self (by omega) (by omega)),
        digitChar_toNat (Nat.mod_lt _ (by omega))]
      omega

lemma not_hex_of_digits {l : List Char} (hall : ∀ c ∈ l, isDigitC c = true) :
    (['0', 'x'].isPrefixOf l || ['0', 'X'].isPrefixOf l) = false := by
  cases l with
  | nil => rfl
  | cons a t =>
    cases t with
    | nil => simp [List.isPrefixOf]
    | cons b t2 =>
      have hb := hall b (by simp)
      have hbx : b ≠ 'x' := by rintro rfl; revert hb; decide
      have hbX : b ≠ 'X' := by rintro rfl; revert hb; decide
      simp [List.isPrefixOf]
      exact ⟨fun _ h => hbx h.symm, fun _ h => hbX h.symm⟩

lemma jsParseIntDigitsPart_digits {sgn : Int} {l : List Char}
    (hall : ∀ c ∈ l, isDigitC c = true) (hne : l ≠ []) :
    jsParseIntDigitsPart sgn l = some (sgn * (decDigitsVal l : Int)) := by
  rw [jsParseIntDigitsPart]
  rw [not_hex_of_digits hall]
  simp only [Bool.false_eq_true, if_false]
  rw [List.takeWhile_eq_self_iff.mpr (by intro x hx; exact hall x hx)]
  simp [hne]

lemma jsParseInt_natChars (n : Nat) : jsParseInt (natChars n) = some (n : Int) := by
  obtain ⟨c, cs, hc⟩ : ∃ c cs, natChars n = c :: cs := by
    cases h : natChars n with
    | nil => exact absurd h (natChars_ne_nil n)
    | cons c cs => exact ⟨c, cs, rfl⟩
  have hall := mem_natChars_digit n
  rw [hc] at hall
  have hcd : isDigitC c = true := hall c (by simp)
  rw [jsParseInt, hc, List.dropWhile_cons]
  rw [isDigitC_not_ws hcd]
  simp only [Bool.false_eq_true, if_false]
  simp only [jsParseIntSign]
  rw [if_neg (isDigitC_ne hcd).1, if_neg (isDigitC_ne hcd).2.1]
  rw [jsParseIntDigitsPart_digits hall (by simp)]
  rw [← hc, decDigitsVal_natChars]
  simp

lemma jsParseInt_intChars (d : Int) : jsParseInt (intChars d) = some d := by
  by_cases hd : d < 0
  · rw [intChars, if_pos hd]
    obtain ⟨c, cs, hc⟩ : ∃ c cs, natChars d.natAbs = c :: cs := by
      cases h : natChars d.natAbs with
      | nil => exact absurd h (natChars_ne_nil _)
      | cons c cs => exact ⟨c, cs, rfl⟩
    have hall := mem_natChars_digit d.natAbs
    rw [jsParseInt, List.dropWhile_cons]
    have hws : isWS '-' = false := by decide
    rw [hws]
    simp only [Bool.false_eq_true, if_false]
    have hsgn : jsParseIntSign ('-' :: natChars d.natAbs) = (-1, natChars d.natAbs) := by
      simp [jsParseIntSign]
    rw [hsgn]
    rw [jsParseIntDigitsPart_digits hall (natChars_ne_nil _)]
    rw [decDigitsVal_natChars]
    congr 1
    omega
  · rw [intChars, if_neg hd]
    rw [jsParseInt_natChars]
    congr 1
    omega

lemma closerMatches_cons_ne {c : Char} (h : c ≠ '\n') (rest : List Char) :
    closerMatches (c :: rest) = false := by
  simp [closerMatches, h]

lemma startsWithDash3_ne {a : Char} (h : a ≠ '-') (t : List Char) :
    startsWithDash3 (a :: t) = false := by
  cases t with
  | nil => rfl
  | cons b t2 =>
    cases t2 with
    | nil => rfl
    | cons c' t3 => simp [startsWithDash3, h]

lemma dropWhile_head_false {p : Char → Bool} {c : Char} (h : p c = false) (t : List Char) :
    List.dropWhile p (c :: t) = c :: t := by
  rw [List.dropWhile_cons, h]
  simp

lemma lazyCapture_append {xs rest : List Char} (h : ∀ c ∈ xs, c ≠ '\n') :
    lazyCapture (xs ++ rest) = (lazyCapture rest).map (xs ++ ·) := by
  induction xs with
  | nil =>
    simp only [List.nil_append]
    cases lazyCapture rest <;> simp
  | cons c t ih =>
    simp only [List.cons_append, lazyCapture, List.append_eq]
    rw [closerMatches_cons_ne (h c (by simp))]
    simp only [Bool.false_eq_true, if_false]
    rw [ih (fun x hx => h x (by simp [hx]))]
    cases lazyCapture rest <;> simp

lemma splitNL_no_nl {xs : List Char} (h : ∀ c ∈ xs, c ≠ '\n') : splitNL xs = [xs] := by
  induction xs with
  | nil => rfl
  | cons c t ih =>
    simp only [splitNL]
    rw [if_neg (h c (by simp)), ih (fun x hx => h x (by simp [hx]))]

lemma splitNL_append_nl {xs rest : List Char} (h : ∀ c ∈ xs, c ≠ '\n') :
    splitNL (xs ++ '\n' :: rest) = xs :: splitNL rest := by
  induction xs with
  | nil => simp [splitNL]
  | cons c t ih =>
    simp only [List.cons_append, splitNL, List.append_eq]
    rw [if_neg (h c (by simp)), ih (fun x hx => h x (by simp [hx]))]

lemma jsTrim_cons_ws {c : Char} (h : isWS c = true) (l : List Char) :
    jsTrim (c :: l) = jsTrim l := by
  simp [jsTrim, List.dropWhile_cons, h]

lemma isPrefixOf_append_self (xs ys : List Char) : xs.isPrefixOf (xs ++ ys) = true := by
  induction xs with
  | nil => simp [List.isPrefixOf]
  | cons c t ih => simp [List.isPrefixOf, ih]

lemma isPrefixOf_cons_ne {a b : Char} (h : a ≠ b) (t1 t2 : List Char) :
    (a :: t1).isPrefixOf (b :: t2) = false := by
  simp [List.isPrefixOf, h]

lemma lineValue_self (key rest : List Char) (hnt : ∀ c ∈ rest, isNL c = false)
    (hne : rest ≠ []) : lineValue key (key ++ rest) = some rest := by
  rw [lineValue]
  simp only [isPrefixOf_append_self, if_true]
  rw [List.drop_left]
  rw [List.takeWhile_eq_self_iff.mpr (by intro x hx; simp [hnt x hx])]
  simp [hne]

lemma lineValue_none_of_ne {key line : List Char} (h : key.isPrefixOf line = false) :
    lineValue key line = none := by
  simp [lineValue, h]

/-- The frontmatter block match on a body of the canonical shape
`---\ndraft_id:<v1>\nchecksum:<v2>\n---<tl>` (where `tl` satisfies the final
`\s*\n` of the regex): the capture is exactly the two key-value lines. -/
lemma findFrontmatterCapture_block (v1 v2 tl : List Char)
    (h1 : ∀ c ∈ v1, c ≠ '\n') (h2 : ∀ c ∈ v2, c ≠ '\n')
    (htl : ((tl.takeWhile isWS).contains '\n') = true) :
    findFrontmatterCapture
        ('-' :: '-' :: '-' :: '\n' ::
          ("draft_id:".data ++ v1 ++ '\n' :: ("checksum:".data ++ v2 ++ '\n' :: '-' :: '-' :: '-' :: tl))) =
      some ('\n' :: ("draft_id:".data ++ v1 ++ '\n' :: ("checksum:".data ++ v2))) := by
  have hkey1 : ∀ c ∈ "draft_id:".data, c ≠ '\n' := by decide
  have hkey2 : ∀ c ∈ "checksum:".data, c ≠ '\n' := by decide
  have hd1 : ∀ c ∈ "draft_id:".data ++ v1, c ≠ '\n' := by
    intro c hc
    rcases List.mem_append.mp hc with hc | hc
    · exact hkey1 c hc
    · exact h1 c hc
  have hd2 : ∀ c ∈ "checksum:".data ++ v2, c ≠ '\n' := by
    intro c hc
    rcases List.mem_append.mp hc with hc | hc
    · exact hkey2 c hc
    · exact h2 c hc
  rw [findFrontmatterCapture]
  have hsw : startsWithDash3
      ('-' :: '-' :: '-' :: '\n' ::
        ("draft_id:".data ++ v1 ++ '\n' :: ("checksum:".data ++ v2 ++ '\n' :: '-' :: '-' :: '-' :: tl))) = true := by
    simp [startsWithDash3]
  rw [hsw]
  simp only [if_true, List.drop_succ_cons, List.drop_zero]
  have hlc : lazyCapture
      ('\n' :: ("draft_id:".data ++ v1 ++ '\n' :: ("checksum:".data ++ v2 ++ '\n' :: '-' :: '-' :: '-' :: tl))) =
      some ('\n' :: ("draft_id:".data ++ v1 ++ '\n' :: ("checksum:".data ++ v2))) := by
    rw [lazyCapture]
    have hcm1 : closerMatches
        ('\n' :: ("draft_id:".data ++ v1 ++ '\n' :: ("checksum:".data ++ v2 ++ '\n' :: '-' :: '-' :: '-' :: tl))) = false := by
      rw [closerMatches]
      simp only [if_pos rfl]
      have hdw : List.dropWhile isWS
          ("draft_id:".data ++ v1 ++ '\n' :: ("checksum:".data ++ v2 ++ '\n' :: '-' :: '-' :: '-' :: tl)) =
          "draft_id:".data ++ v1 ++ '\n' :: ("checksum:".data ++ v2 ++ '\n' :: '-' :: '-' :: '-' :: tl) := by
        show List.dropWhile isWS ('d' :: _) = _
        exact dropWhile_head_false (by decide) _
      rw [hdw]
      have hsw3 : startsWithDash3
          ("draft_id:".data ++ v1 ++ '\n' :: ("checksum:".data ++ v2 ++ '\n' :: '-' :: '-' :: '-' :: tl)) = false := by
        show startsWithDash3 ('d' :: _) = _
        exact startsWithDash3_ne (by decide) _
      rw [hsw3]
      simp
    rw [hcm1]
    simp only [Bool.false_eq_true, if_false]
    rw [show ("draft_id:".data ++ v1 ++ '\n' :: ("checksum:".data ++ v2 ++ '\n' :: '-' :: '-' :: '-' :: tl)) =
        (("draft_id:".data ++ v1) ++ '\n' :: ("checksum:".data ++ v2 ++ '\n' :: '-' :: '-' :: '-' :: tl)) by simp]
    rw [lazyCapture_append hd1]
    rw [lazyCapture]
    have hcm2 : closerMatches ('\n' :: ("checksum:".data ++ v2 ++ '\n' :: '-' :: '-' :: '-' :: tl)) = false := by
      rw [closerMatches]
      simp only [if_pos rfl]
      have hdw : List.dropWhile isWS ("checksum:".data ++ v2 ++ '\n' :: '-' :: '-' :: '-' :: tl) =
          "checksum:".data ++ v2 ++ '\n' :: '-' :: '-' :: '-' :: tl := by
        show List.dropWhile isWS ('c' :: _) = _
        exact dropWhile_head_false (by decide) _
      rw [hdw]
      have hsw3 : startsWithDash3 ("checksum:".data ++ v2 ++ '\n' :: '-' :: '-' :: '-' :: tl) = false := by
        show startsWithDash3 ('c' :: _) = _
        exact startsWithDash3_ne (by decide) _
      rw [hsw3]
      simp
    rw [hcm2]
    simp only [Bool.false_eq_true, if_false]
    rw [show ("checksum:".data ++ v2 ++ '\n' :: '-' :: '-' :: '-' :: tl) =
        (("checksum:".data ++ v2) ++ '\n' :: '-' :: '-' :: '-' :: tl) by simp]
    rw [lazyCapture_append hd2]
    rw [lazyCapture]
    have hcm3 : closerMatches ('\n' :: '-' :: '-' :: '-' :: tl) = true := by
      rw [closerMatches]
      simp only [if_pos rfl]
      have hdw : List.dropWhile isWS ('-' :: '-' :: '-' :: tl) = '-' :: '-' :: '-' :: tl :=
        dropWhile_head_false (by decide) _
      rw [hdw]
      have hsw3 : startsWithDash3 ('-' :: '-' :: '-' :: tl) = true := by simp [startsWithDash3]
      rw [hsw3]
      simpa using htl
    rw [hcm3]
    simp
  rw [hlc]

lemma dropWhile_eq_self_of_all {p : Char → Bool} {l : List Char}
    (h : ∀ c ∈ l, p c = false) : l.dropWhile p = l := by
  cases l with
  | nil => rfl
  | cons c t =>
    rw [List.dropWhile_cons, h c (by simp)]
    simp

lemma jsTrim_eq_self_of_all {l : List Char} (h : ∀ c ∈ l, isWS c = false) : jsTrim l = l := by
  rw [jsTrim, dropWhile_eq_self_of_all h,
    dropWhile_eq_self_of_all (by intro c hc; exact h c (by simpa using hc)),
    List.reverse_reverse]

lemma mem_intChars (d : Int) : ∀ x ∈ intChars d, x = '-' ∨ isDigitC x = true := by
  intro x hx
  rw [intChars] at hx
  split at hx
  · rcases List.mem_cons.mp hx with hx | hx
    · left; exact hx
    · right; exact mem_natChars_digit _ x hx
  · right; exact mem_natChars_digit _ x hx

lemma intChars_not_nl (d : Int) : ∀ x ∈ intChars d, isNL x = false := by
  intro x hx
  rcases mem_intChars d x hx with hx | hx
  · subst hx; decide
  · exact isDigitC_not_nl hx

lemma intChars_not_ws (d : Int) : ∀ x ∈ intChars d, isWS x = false := by
  intro x hx
  rcases mem_intChars d x hx with hx | hx
  · subst hx; decide
  · exact isDigitC_not_ws hx

/-- Decoding a body of the canonical frontmatter-block shape: `draft_id`
becomes `parseInt(trim v1)`, `checksum` becomes `trim v2`. -/
lemma getPullFrontmatterData_block (body : String) (v1 v2 tl : List Char)
    (hbody : body.data =
      '-' :: '-' :: '-' :: '\n' ::
        ("draft_id:".data ++ v1 ++ '\n' :: ("checksum:".data ++ v2 ++ '\n' :: '-' :: '-' :: '-' :: tl)))
    (h1 : ∀ c ∈ v1, isNL c = false) (h2 : ∀ c ∈ v2, isNL c = false)
    (hv1 : v1 ≠ []) (hv2 : v2 ≠ [])
    (htl : ((tl.takeWhile isWS).contains '\n') = true) :
    getPullFrontmatterData body = some ⟨jsParseInt (jsTrim v1), some (String.mk (jsTrim v2))⟩ := by
  have h1' : ∀ c ∈ v1, c ≠ '\n' := by
    intro c hc heq
    have := h1 c hc
    rw [heq] at this
    revert this; decide
  have h2' : ∀ c ∈ v2, c ≠ '\n' := by
    intro c hc heq
    have := h2 c hc
    rw [heq] at this
    revert this; decide
  have hcap : findFrontmatterCapture body.data =
      some ('\n' :: ("draft_id:".data ++ v1 ++ '\n' :: ("checksum:".data ++ v2))) := by
    rw [hbody]
    exact findFrontmatterCapture_block v1 v2 tl h1' h2' htl
  have hsplit : splitNL ('\n' :: ("draft_id:".data ++ v1 ++ '\n' :: ("checksum:".data ++ v2))) =
      [[], "draft_id:".data ++ v1, "checksum:".data ++ v2] := by
    rw [splitNL]
    rw [show ("draft_id:".data ++ v1 ++ '\n' :: ("checksum:".data ++ v2)) =
        (("draft_id:".data ++ v1) ++ '\n' :: ("checksum:".data ++ v2)) by simp]
    have hkey1 : ∀ c ∈ "draft_id:".data, c ≠ '\n' := by decide
    have hkey2 : ∀ c ∈ "checksum:".data, c ≠ '\n' := by decide
    rw [splitNL_append_nl (by
      intro c hc
      rcases List.mem_append.mp hc with hc | hc
      · exact hkey1 c hc
      · exact h1' c hc)]
    rw [splitNL_no_nl (by
      intro c hc
      rcases List.mem_append.mp hc with hc | hc
      · exact hkey2 c hc
      · exact h2' c hc)]
    simp
  have hline1 : scanFrontLine (none, none) ("draft_id:".data ++ v1) =
      (some (jsParseInt (jsTrim v1)), none) := by
    rw [scanFrontLine]
    rw [lineValue_self _ _ h1 hv1]
  have hline2 : scanFrontLine (some (jsParseInt (jsTrim v1)), none) ("checksum:".data ++ v2) =
      (some (jsParseInt (jsTrim v1)), some (jsTrim v2)) := by
    rw [scanFrontLine]
    rw [lineValue_none_of_ne (by
      show List.isPrefixOf ('d' :: _) ('c' :: _) = false
      exact isPrefixOf_cons_ne (by decide) _ _)]
    rw [lineValue_self _ _ h2 hv2]
  have hline0 : scanFrontLine (none, none) [] = (none, none) := by
    rw [scanFrontLine]
    rw [lineValue_none_of_ne (by decide), lineValue_none_of_ne (by decide)]
  rw [getPullFrontmatterData]
  rw [hcap]
  simp only [hsplit, List.foldl_cons, List.foldl_nil, hline0, hline1, hline2]
  cases hpi : jsParseInt (jsTrim v1) <;> rfl

/-! ## Claims -/

/-- **C1, counterexample.**  Decoding the encoded block directly does not
round-trip: the frontmatter regex requires a newline after the closing
`---`, which `createPullFrontmatter` does not produce, so
`getPullFrontmatterData (createPullFrontmatter f)` is `none` (and in
particular does not yield `f.draftId`/`f.checksum`). -/
theorem frontmatter_encode_then_decode_is_none :
    getPullFrontmatterData (createPullFrontmatter 7 "abc123") = none := by decide

/-- **C1, amended.**  Re-encoding is stable once the encoded block is
followed by a newline (as in every use in `runVersion`, which appends
`"\n\n" ++ body` to the block): for any integer `draftId` and any
single-line, whitespace-trimmed `checksum`, decoding
`createPullFrontmatter f ++ "\n"` returns exactly `f`. -/
theorem frontmatter_decode_encode_roundtrip (d : Int) (c : String)
    (hnl : ∀ x ∈ c.data, isNL x = false)
    (htrim : jsTrim c.data = c.data) :
    getPullFrontmatterData (createPullFrontmatter d c ++ "\n") =
      some ⟨some d, some c⟩ := by
  have e1 : "---\ndraft_id: ".data = '-' :: '-' :: '-' :: '\n' :: ("draft_id:".data ++ [' ']) := by
    decide
  have e2 : "\nchecksum: ".data = '\n' :: ("checksum:".data ++ [' ']) := by decide
  have e3 : "\n---".data = ['\n', '-', '-', '-'] := by decide
  have hshape : (createPullFrontmatter d c ++ "\n").data =
      '-' :: '-' :: '-' :: '\n' ::
        ("draft_id:".data ++ (' ' :: intChars d) ++
          '\n' :: ("checksum:".data ++ (' ' :: c.data) ++ '\n' :: '-' :: '-' :: '-' :: "\n".data)) := by
    show (((("---\ndraft_id: ".data ++ intChars d) ++ "\nchecksum: ".data) ++ c.data) ++
        "\n---".data) ++ "\n".data = _
    rw [e1, e2, e3]
    simp
  have hv1 : ∀ x ∈ ' ' :: intChars d, isNL x = false := by
    intro x hx
    rcases List.mem_cons.mp hx with hx | hx
    · subst hx; decide
    · exact intChars_not_nl d x hx
  have hv2 : ∀ x ∈ ' ' :: c.data, isNL x = false := by
    intro x hx
    rcases List.mem_cons.mp hx with hx | hx
    · subst hx; decide
    · exact hnl x hx
  rw [getPullFrontmatterData_block _ (' ' :: intChars d) (' ' :: c.data) ("\n".data)
    hshape hv1 hv2 (by simp) (by simp) (by decide)]
  rw [jsTrim_cons_ws (by decide), jsTrim_cons_ws (by decide)]
  rw [jsTrim_eq_self_of_all (intChars_not_ws d), jsParseInt_intChars, htrim]

/-- Witness for `frontmatter_decode_encode_roundtrip` at a concrete
frontmatter (draft id 42, an md5-like checksum). -/
theorem frontmatter_decode_encode_roundtrip_witness :
    getPullFrontmatterData (createPullFrontmatter 42 "d41d8cd98f00b204" ++ "\n") =
      some ⟨some 42, some "d41d8cd98f00b204"⟩ :=
  frontmatter_decode_encode_roundtrip 42 "d41d8cd98f00b204" (by decide) (by decide)

lemma findFrontmatterCapture_none_of_no_dash3 {cs : List Char}
    (h : containsDash3 cs = false) : findFrontmatterCapture cs = none := by
  induction cs with
  | nil => rfl
  | cons c rest ih =>
    rw [containsDash3, Bool.or_eq_false_iff] at h
    rw [findFrontmatterCapture, h.1]
    simp only [Bool.false_eq_true, if_false]
    exact ih h.2

/-- **C3.**  `getPullFrontmatterData` returns none on a body with no
frontmatter block (in particular on any body not even containing `---`);
inside a block, a `draft_id` whose value does not parse as an integer
decodes to an absent `draftId` while a well-formed `checksum` line of the
same block is still preserved (trimmed). -/
theorem frontmatter_decode_no_block_and_malformed_draft_id :
    (∀ body : String, containsDash3 body.data = false → getPullFrontmatterData body = none) ∧
    (∀ v c : String,
      (∀ x ∈ v.data, isNL x = false) → (∀ x ∈ c.data, isNL x = false) →
      v ≠ "" → c ≠ "" → jsParseInt (jsTrim v.data) = none →
      getPullFrontmatterData ("---\ndraft_id:" ++ v ++ "\nchecksum:" ++ c ++ "\n---\n") =
        some ⟨none, some (String.mk (jsTrim c.data))⟩) := by
  constructor
  · intro body h
    rw [getPullFrontmatterData, findFrontmatterCapture_none_of_no_dash3 h]
  · intro v c hv hc hvne hcne hparse
    have e1 : "---\ndraft_id:".data = '-' :: '-' :: '-' :: '\n' :: "draft_id:".data := by decide
    have e2 : "\nchecksum:".data = '\n' :: "checksum:".data := by decide
    have e3 : "\n---\n".data = '\n' :: '-' :: '-' :: '-' :: ['\n'] := by decide
    have hshape : ("---\ndraft_id:" ++ v ++ "\nchecksum:" ++ c ++ "\n---\n").data =
        '-' :: '-' :: '-' :: '\n' ::
          ("draft_id:".data ++ v.data ++
            '\n' :: ("checksum:".data ++ c.data ++ '\n' :: '-' :: '-' :: '-' :: ['\n'])) := by
      show (((("---\ndraft_id:".data ++ v.data) ++ "\nchecksum:".data) ++ c.data) ++
          "\n---\n".data) = _
      rw [e1, e2, e3]
      simp
    have hvd : v.data ≠ [] := fun hd => hvne (String.ext (hd.trans rfl))
    have hcd : c.data ≠ [] := fun hd => hcne (String.ext (hd.trans rfl))
    rw [getPullFrontmatterData_block _ v.data c.data ['\n'] hshape hv hc hvd hcd (by decide)]
    rw [hparse]

/-- Witness for `frontmatter_decode_no_block_and_malformed_draft_id` at
concrete inputs: an ordinary body without a block, and a block with a
non-numeric `draft_id` next to a valid `checksum`. -/
theorem frontmatter_decode_no_block_and_malformed_draft_id_witness :
    getPullFrontmatterData "An ordinary pull request body." = none ∧
    getPullFrontmatterData "---\ndraft_id:not-a-number\nchecksum:deadbeef\n---\n" =
      some ⟨none, some "deadbeef"⟩ := by
  constructor
  · exact frontmatter_decode_no_block_and_malformed_draft_id.1
      "An ordinary pull request body." (by decide)
  · have h := frontmatter_decode_no_block_and_malformed_draft_id.2
      "not-a-number" "deadbeef" (by decide) (by decide) (by decide) (by decide) (by decide)
    have e : ("---\ndraft_id:" ++ "not-a-number" ++ "\nchecksum:" ++ "deadbeef" ++ "\n---\n" : String) =
        "---\ndraft_id:not-a-number\nchecksum:deadbeef\n---\n" := by decide
    rw [e] at h
    rw [h]
    decide

/-- **C2.**  The checksum guard of `runVersion`: when the hash of the live
draft release's body equals the stored checksum, the release body is
overwritten with the freshly extracted changelog content and the re-embedded
frontmatter pair is `(draftId, hash of the new release body)`; when the
hashes differ, the release is left untouched and the re-embedded pair is the
stored `(draftId, checksum)` unchanged. -/
theorem reconcileTrackedRelease_checksum_guard (hash : String → String) (draftId : Int)
    (checksum : String) (draftRelease : Release) (latestVersion latestContent : String) :
    (hash draftRelease.body = checksum →
      (reconcileTrackedRelease hash draftId checksum draftRelease latestVersion latestContent).1.body =
          latestContent ∧
      (reconcileTrackedRelease hash draftId checksum draftRelease latestVersion latestContent).2.1 =
          draftId ∧
      (reconcileTrackedRelease hash draftId checksum draftRelease latestVersion latestContent).2.2 =
          hash ((reconcileTrackedRelease hash draftId checksum draftRelease latestVersion
            latestContent).1.body)) ∧
    (hash draftRelease.body ≠ checksum →
      (reconcileTrackedRelease hash draftId checksum draftRelease latestVersion latestContent).1 =
          draftRelease ∧
      (reconcileTrackedRelease hash draftId checksum draftRelease latestVersion latestContent).2.1 =
          draftId ∧
      (reconcileTrackedRelease hash draftId checksum draftRelease latestVersion latestContent).2.2 =
          checksum) := by
  constructor
  · intro h
    simp [reconcileTrackedRelease, h]
  · intro h
    simp [reconcileTrackedRelease, h]

/-- Witness for `reconcileTrackedRelease_checksum_guard`: both branches at
concrete inputs (the identity function as the hash). -/
theorem reconcileTrackedRelease_checksum_guard_witness :
    ((reconcileTrackedRelease (fun s => s) 5 "old body" ⟨5, "n", "t", "old body", true⟩
        "1.2.3" "new content").1.body = "new content" ∧
      (reconcileTrackedRelease (fun s => s) 5 "old body" ⟨5, "n", "t", "old body", true⟩
        "1.2.3" "new content").2.1 = 5 ∧
      (reconcileTrackedRelease (fun s => s) 5 "old body" ⟨5, "n", "t", "old body", true⟩
        "1.2.3" "new content").2.2 =
        (fun s => s) ((reconcileTrackedRelease (fun s => s) 5 "old body"
          ⟨5, "n", "t", "old body", true⟩ "1.2.3" "new content").1.body)) ∧
    ((reconcileTrackedRelease (fun s => s) 5 "edited externally"
        ⟨5, "n", "t", "old body", true⟩ "1.2.3" "new content").1 =
        ⟨5, "n", "t", "old body", true⟩ ∧
      (reconcileTrackedRelease (fun s => s) 5 "edited externally"
        ⟨5, "n", "t", "old body", true⟩ "1.2.3" "new content").2.1 = 5 ∧
      (reconcileTrackedRelease (fun s => s) 5 "edited externally"
        ⟨5, "n", "t", "old body", true⟩ "1.2.3" "new content").2.2 = "edited externally") :=
  ⟨(reconcileTrackedRelease_checksum_guard (fun s => s) 5 "old body"
      ⟨5, "n", "t", "old body", true⟩ "1.2.3" "new content").1 rfl,
    (reconcileTrackedRelease_checksum_guard (fun s => s) 5 "edited externally"
      ⟨5, "n", "t", "old body", true⟩ "1.2.3" "new content").2 (by decide)⟩

lemma runPublishRootLoop_no_tag {cr : Except String (Option CreatedRelease)} {pkg : Pkg}
    {tagName : String} : ∀ lines : List String, (∀ l ∈ lines, containsNewTag l = false) →
    runPublishRootLoop cr pkg tagName lines = .ok ([], [], []) := by
  intro lines h
  induction lines with
  | nil => rfl
  | cons l rest ih =>
    simp only [runPublishRootLoop]
    rw [h l (by simp)]
    simp only [Bool.false_eq_true, if_false]
    exact ih (fun x hx => h x (by simp [hx]))

lemma runPublishRootLoop_fires {cr : Except String (Option CreatedRelease)} {pkg : Pkg}
    {tagName : String} {r : Option CreatedRelease} (hcr : cr = .ok r)
    (pre : List String) (mline : String) (post : List String)
    (hpre : ∀ l ∈ pre, containsNewTag l = false) (hm : containsNewTag mline = true) :
    runPublishRootLoop cr pkg tagName (pre ++ mline :: post) =
      .ok ([pkg], [(pkg, tagName)], r.toList) := by
  induction pre with
  | nil =>
    simp only [List.nil_append]
    simp only [runPublishRootLoop]
    rw [hm]
    simp only [if_true, hcr]
  | cons l rest ih =>
    simp only [List.cons_append]
    simp only [runPublishRootLoop]
    rw [hpre l (by simp)]
    simp only [Bool.false_eq_true, if_false]
    exact ih (fun x hx => hpre x (by simp [hx]))

/-- **C4, counterexample.**  A root workspace with *two* packages does not
make `runPublish` fail: the code only checks for an empty package list, so
the run succeeds (here: no `New tag:` in the stdout, result "not
published"). -/
theorem runPublishRoot_two_packages_no_error :
    runPublishRoot (fun _ _ => none) none "" [⟨"pkg-a", "1.0.0"⟩, ⟨"pkg-b", "2.0.0"⟩] =
      .ok ([], [], [], .notPublished) := rfl

/-- **C4, amended.**  The single-package branch of `runPublish` fails with
the fatal "No package found" error exactly when the workspace package list
is empty; for one or more packages it proceeds, using only the first
package (any further packages are ignored). -/
theorem runPublishRoot_package_count_check
    (ge : String → String → Option ChangelogEntry) (file : Option String)
    (stdout : String) (pkgs : List Pkg) :
    (pkgs = [] →
      runPublishRoot ge file stdout pkgs =
        .error "No package found.This is probably a bug in the action, please open an issue") ∧
    (∀ p rest, pkgs = p :: rest →
      runPublishRoot ge file stdout pkgs = runPublishRoot ge file stdout [p]) := by
  constructor
  · rintro rfl
    rfl
  · rintro p rest rfl
    rfl

/-- Witness for `runPublishRoot_package_count_check`: the empty workspace
errors, and a two-package workspace behaves like its first package alone. -/
theorem runPublishRoot_package_count_check_witness :
    runPublishRoot (fun _ _ => none) none "" ([] : List Pkg) =
      .error "No package found.This is probably a bug in the action, please open an issue" ∧
    runPublishRoot (fun _ _ => none) none "New tag: pkg-a@1.0.0"
        [⟨"pkg-a", "1.0.0"⟩, ⟨"pkg-b", "2.0.0"⟩] =
      runPublishRoot (fun _ _ => none) none "New tag: pkg-a@1.0.0" [⟨"pkg-a", "1.0.0"⟩] :=
  ⟨(runPublishRoot_package_count_check (fun _ _ => none) none "" []).1 rfl,
    (runPublishRoot_package_count_check (fun _ _ => none) none "New tag: pkg-a@1.0.0"
      [⟨"pkg-a", "1.0.0"⟩, ⟨"pkg-b", "2.0.0"⟩]).2 ⟨"pkg-a", "1.0.0"⟩ [⟨"pkg-b", "2.0.0"⟩] rfl⟩

/-- **C9.**  In the single-package branch of `runPublish`, when the publish
stdout has at least one line containing `New tag:`, exactly one release
action is performed: the single package is marked released on the first
matching line (one `createRelease` invocation with tag `v<version>`) and
all later lines, including further `New tag:` lines, are ignored. -/
theorem runPublishRoot_first_match_wins
    (ge : String → String → Option ChangelogEntry) (file : Option String)
    (stdout : String) (p : Pkg) (rest : List Pkg)
    (pre : List String) (mline : String) (post : List String)
    (r : Option CreatedRelease)
    (hsplit : splitLinesStr stdout = pre ++ mline :: post)
    (hpre : ∀ l ∈ pre, containsNewTag l = false)
    (hm : containsNewTag mline = true)
    (hcr : createRelease ge file p ("v" ++ p.version) = .ok r) :
    runPublishRoot ge file stdout (p :: rest) =
      .ok ([p], [(p, "v" ++ p.version)], r.toList, .published [(p.name, p.version)]) := by
  rw [runPublishRoot]
  rw [hsplit, runPublishRootLoop_fires hcr pre mline post hpre hm]
  rfl

/-- Witness for `runPublishRoot_first_match_wins`: two `New tag:` lines and
one workspace package result in exactly one release action. -/
theorem runPublishRoot_first_match_wins_witness :
    runPublishRoot (fun _ v => some ⟨v, "notes"⟩) (some "changelog")
        "New tag: a@1.0.0\nNew tag: a@1.0.0" [⟨"a", "1.0.0"⟩] =
      .ok ([⟨"a", "1.0.0"⟩], [(⟨"a", "1.0.0"⟩, "v" ++ "1.0.0")],
        [⟨"v" ++ "1.0.0", "v" ++ "1.0.0", "notes", false⟩],
        .published [("a", "1.0.0")]) :=
  runPublishRoot_first_match_wins (fun _ v => some ⟨v, "notes"⟩) (some "changelog")
    "New tag: a@1.0.0\nNew tag: a@1.0.0" ⟨"a", "1.0.0"⟩ []
    [] "New tag: a@1.0.0" ["New tag: a@1.0.0"] (some ⟨"v" ++ "1.0.0", "v" ++ "1.0.0", "notes", false⟩)
    (by decide) (by decide) (by decide) rfl

/-- **C10.**  In the single-package branch of `runPublish`, when a
`New tag:` line is present but the package's `CHANGELOG.md` does not exist
(`ENOENT`), the GitHub release creation is silently skipped (no release is
created), yet the run still reports `published: true` with the package's
name and manifest version. -/
theorem runPublishRoot_missing_changelog_skips_release
    (ge : String → String → Option ChangelogEntry)
    (stdout : String) (p : Pkg) (rest : List Pkg)
    (pre : List String) (mline : String) (post : List String)
    (hsplit : splitLinesStr stdout = pre ++ mline :: post)
    (hpre : ∀ l ∈ pre, containsNewTag l = false)
    (hm : containsNewTag mline = true) :
    runPublishRoot ge none stdout (p :: rest) =
      .ok ([p], [(p, "v" ++ p.version)], [], .published [(p.name, p.version)]) := by
  rw [runPublishRoot]
  rw [hsplit, @runPublishRootLoop_fires (createRelease ge none p ("v" ++ p.version))
    p ("v" ++ p.version) none rfl pre mline post hpre hm]
  rfl

/-- Witness for `runPublishRoot_missing_changelog_skips_release`: with no
changelog file, a `New tag:` line yields a published result with no created
release. -/
theorem runPublishRoot_missing_changelog_skips_release_witness :
    runPublishRoot (fun _ _ => none) none "setup\nNew tag: a@1.0.0" [⟨"a", "1.0.0"⟩] =
      .ok ([⟨"a", "1.0.0"⟩], [(⟨"a", "1.0.0"⟩, "v" ++ "1.0.0")], [],
        .published [("a", "1.0.0")]) :=
  runPublishRoot_missing_changelog_skips_release (fun _ _ => none)
    "setup\nNew tag: a@1.0.0" ⟨"a", "1.0.0"⟩ [] ["setup"] "New tag: a@1.0.0" []
    (by decide) (by decide) (by decide)

lemma matchedTagNames_cons (l : String) (rest : List String) :
    matchedTagNames (l :: rest) =
      match matchNewTagLine l.data with
      | none => matchedTagNames rest
      | some r => String.mk r.1 :: matchedTagNames rest := by
  rw [matchedTagNames, List.filterMap_cons]
  cases matchNewTagLine l.data <;> rfl

lemma collectReleasedPackages_all_found (pkgs : List Pkg) : ∀ lines : List String,
    (∀ n ∈ matchedTagNames lines, (lookupPkg pkgs n).isSome) →
    collectReleasedPackages pkgs lines = .ok ((matchedTagNames lines).filterMap (lookupPkg pkgs)) := by
  intro lines
  induction lines with
  | nil => intro _; rfl
  | cons l rest ih =>
    intro h
    rw [matchedTagNames_cons] at h
    rw [collectReleasedPackages, matchedTagNames_cons]
    cases hml : matchNewTagLine l.data with
    | none =>
      simp only [hml] at h ⊢
      exact ih h
    | some r =>
      obtain ⟨nm, ver⟩ := r
      simp only [hml] at h ⊢
      obtain ⟨pkg, hpkg⟩ : ∃ pkg, lookupPkg pkgs (String.mk nm) = some pkg :=
        Option.isSome_iff_exists.mp (h (String.mk nm) (by simp))
      simp only [hpkg]
      rw [ih (fun n hn => h n (by simp [hn]))]
      rw [List.filterMap_cons]
      simp only [hpkg]
      rfl

lemma collectReleasedPackages_missing (pkgs : List Pkg) : ∀ lines : List String,
    (∃ n ∈ matchedTagNames lines, lookupPkg pkgs n = none) →
    ∃ msg, collectReleasedPackages pkgs lines = .error msg := by
  intro lines
  induction lines with
  | nil => rintro ⟨n, hn, _⟩; simp [matchedTagNames] at hn
  | cons l rest ih =>
    rintro ⟨n, hn, hnone⟩
    rw [matchedTagNames_cons] at hn
    rw [collectReleasedPackages]
    cases hml : matchNewTagLine l.data with
    | none =>
      simp only [hml] at hn ⊢
      exact ih ⟨n, hn, hnone⟩
    | some r =>
      obtain ⟨nm, ver⟩ := r
      simp only [hml] at hn ⊢
      simp only [List.mem_cons] at hn
      cases hlk : lookupPkg pkgs (String.mk nm) with
      | none =>
        simp only [hlk]
        exact ⟨_, rfl⟩
      | some pkg =>
        simp only [hlk]
        rcases hn with hn | hn
        · rw [hn] at hnone
          rw [hnone] at hlk
          cases hlk
        · obtain ⟨msg, hmsg⟩ := ih ⟨n, hn, hnone⟩
          refine ⟨msg, ?_⟩
          rw [hmsg]
          rfl

/-- **C5.**  The multi-package publish matcher: when every name matched by
the `New tag:` regex across the stdout lines is present in the workspace
package map, the released packages are exactly the looked-up packages in
stdout order (duplicates kept); when any matched name is absent from the
map, the run fails with the "Package not found" error. -/
theorem runPublishMulti_matcher (stdout : String) (pkgs : List Pkg) :
    ((∀ n ∈ matchedTagNames (splitLinesStr stdout), (lookupPkg pkgs n).isSome) →
      runPublishMultiMatch stdout pkgs =
        .ok ((matchedTagNames (splitLinesStr stdout)).filterMap (lookupPkg pkgs))) ∧
    ((∃ n ∈ matchedTagNames (splitLinesStr stdout), lookupPkg pkgs n = none) →
      ∃ msg, runPublishMultiMatch stdout pkgs = .error msg) :=
  ⟨fun h => collectReleasedPackages_all_found pkgs _ h,
    fun h => collectReleasedPackages_missing pkgs _ h⟩

/-- Witness for `runPublishMulti_matcher`: the spec's example stdout (a bare
and a scoped package) yields exactly those two packages in order; an
unmatched name errors. -/
theorem runPublishMulti_matcher_witness :
    runPublishMultiMatch "New tag: pkg-a@1.2.0\nNew tag: @scope/pkg-b@0.1.0"
        [⟨"pkg-a", "1.2.0"⟩, ⟨"@scope/pkg-b", "0.1.0"⟩] =
      .ok [⟨"pkg-a", "1.2.0"⟩, ⟨"@scope/pkg-b", "0.1.0"⟩] ∧
    (∃ msg, runPublishMultiMatch "New tag: mystery@1.0.0" [⟨"pkg-a", "1.2.0"⟩] =
      .error msg) := by
  constructor
  · have h := (runPublishMulti_matcher "New tag: pkg-a@1.2.0\nNew tag: @scope/pkg-b@0.1.0"
      [⟨"pkg-a", "1.2.0"⟩, ⟨"@scope/pkg-b", "0.1.0"⟩]).1 (by decide)
    rw [h]
    rfl
  · exact (runPublishMulti_matcher "New tag: mystery@1.0.0" [⟨"pkg-a", "1.2.0"⟩]).2
      ⟨"mystery", by decide, by decide⟩

lemma pullLe_refl (p : Pull) : pullLe p p := by
  unfold pullLe pullCompare
  rcases p.mergedAt with _ | x <;> simp

/-- **C6.**  The PR-association resolver: selection is index 0 of the
candidates sorted by the comparator (unmerged PRs after merged ones,
earlier merge timestamp first) — so the selected PR is always a candidate
that compares at-or-before every other candidate; an empty candidate list
selects none; and on the spec's example the PR merged earliest
(`2023-01-01`) is selected. -/
theorem selectAssociatedPull_spec :
    (selectAssociatedPull [] = none) ∧
    (∀ (l : List Pull) (p : Pull), selectAssociatedPull l = some p →
      p ∈ l ∧ ∀ q ∈ l, pullLe p q) ∧
    (selectAssociatedPull [⟨1, none⟩, ⟨2, some 20230201⟩, ⟨3, some 20230101⟩] =
      some ⟨3, some 20230101⟩) := by
  refine ⟨rfl, ?_, by decide⟩
  intro l p h
  rw [selectAssociatedPull] at h
  cases hs : l.insertionSort pullLe with
  | nil => rw [hs] at h; cases h
  | cons a t =>
    rw [hs] at h
    simp only [List.head?_cons, Option.some_inj] at h
    have hperm := List.perm_insertionSort pullLe l
    rw [hs] at hperm
    have hsorted := List.sorted_insertionSort pullLe l
    rw [hs] at hsorted
    rw [List.sorted_cons] at hsorted
    constructor
    · exact hperm.mem_iff.mp (by simp [← h])
    · intro q hq
      have hq' : q ∈ a :: t := hperm.mem_iff.mpr hq
      rcases List.mem_cons.mp hq' with hq2 | hq2
      · rw [hq2, ← h]
        exact pullLe_refl a
      · rw [← h]
        exact hsorted.1 q hq2

/-- Witness for `selectAssociatedPull_spec`: the selected PR of the spec's
example list is a member that compares at-or-before every candidate. -/
theorem selectAssociatedPull_spec_witness :
    selectAssociatedPull [⟨1, none⟩, ⟨2, some 20230201⟩, ⟨3, some 20230101⟩] =
      some ⟨3, some 20230101⟩ ∧
    ((⟨3, some 20230101⟩ : Pull) ∈
        ([⟨1, none⟩, ⟨2, some 20230201⟩, ⟨3, some 20230101⟩] : List Pull) ∧
      ∀ q ∈ ([⟨1, none⟩, ⟨2, some 20230201⟩, ⟨3, some 20230101⟩] : List Pull),
        pullLe ⟨3, some 20230101⟩ q) :=
  ⟨selectAssociatedPull_spec.2.2,
    selectAssociatedPull_spec.2.1 _ _ selectAssociatedPull_spec.2.2⟩

lemma firstTrueIdx_take_some : ∀ (l : List Bool) (d i : Nat),
    firstTrueIdx (l.take d) = some i → firstTrueIdx l = some i := by
  intro l
  induction l with
  | nil => intro d i h; simpa [firstTrueIdx] using h
  | cons b rest ih =>
    intro d i h
    cases d with
    | zero => simp [firstTrueIdx] at h
    | succ d' =>
      rw [List.take_succ_cons] at h
      rw [firstTrueIdx] at h ⊢
      by_cases hb : b
      · simpa [hb] using h
      · simp only [hb, Bool.false_eq_true, if_false] at h ⊢
        cases hf : firstTrueIdx (rest.take d') with
        | none => rw [hf] at h; cases h
        | some j =>
          rw [hf] at h
          rw [ih d' j hf]
          exact h

lemma getLatestChangesetVersionCommit_full {history : List Bool} {depth : Nat}
    (h : history.length ≤ depth) :
    getLatestChangesetVersionCommit history depth = (firstTrueIdx history, 0) := by
  rw [getLatestChangesetVersionCommit]
  rw [queryDeletionCommit, List.take_all_of_le h]
  cases hf : firstTrueIdx history with
  | some c => rfl
  | none => simp [Nat.not_lt.mpr h]

/-- **C8.**  The changeset-commit locator: on a full clone (the whole
history fetched) with no commit deleting change-descriptor files it returns
none with zero deepening steps; the retry loop always terminates with the
first matching commit of the full history (or none if there is none),
regardless of the initial shallow depth; and the number of 50-commit
deepening steps is bounded by the distance from the initial window to full
history. -/
theorem getLatestChangesetVersionCommit_spec :
    (∀ (history : List Bool) (depth : Nat),
      history.length ≤ depth → (∀ b ∈ history, b = false) →
      getLatestChangesetVersionCommit history depth = (none, 0)) ∧
    (∀ (history : List Bool) (depth : Nat),
      (getLatestChangesetVersionCommit history depth).1 = firstTrueIdx history) ∧
    (∀ (history : List Bool) (depth : Nat),
      50 * (getLatestChangesetVersionCommit history depth).2 ≤
        history.length - depth + 50) := by
  have hfull0 : ∀ (history : List Bool) (depth : Nat), history.length ≤ depth →
      (getLatestChangesetVersionCommit history depth).2 = 0 := by
    intro history depth h
    rw [getLatestChangesetVersionCommit_full h]
  have hnone : ∀ (history : List Bool), (∀ b ∈ history, b = false) →
      firstTrueIdx history = none := by
    intro history h
    induction history with
    | nil => rfl
    | cons b rest ih =>
      rw [firstTrueIdx, h b (by simp), ih (fun x hx => h x (by simp [hx]))]
      rfl
  refine ⟨?_, ?_, ?_⟩
  · intro history depth hd hb
    rw [getLatestChangesetVersionCommit_full hd, hnone history hb]
  · intro history depth
    have H : ∀ m, ∀ d, history.length - d = m →
        (getLatestChangesetVersionCommit history d).1 = firstTrueIdx history := by
      intro m
      induction m using Nat.strong_induction_on with
      | _ m ih =>
        intro d hm
        rw [getLatestChangesetVersionCommit]
        cases hq : queryDeletionCommit history d with
        | some c =>
          rw [queryDeletionCommit] at hq
          exact (firstTrueIdx_take_some history d c hq).symm
        | none =>
          by_cases hlt : d < history.length
          · simp only [hlt, dif_pos]
            exact ih (history.length - (d + 50)) (by omega) (d + 50) rfl
          · simp only [hlt, dif_neg]
            rw [queryDeletionCommit, List.take_all_of_le (by omega)] at hq
            exact hq.symm
    exact H (history.length - depth) depth rfl
  · intro history depth
    have H : ∀ m, ∀ d, history.length - d = m →
        50 * (getLatestChangesetVersionCommit history d).2 ≤ history.length - d + 50 := by
      intro m
      induction m using Nat.strong_induction_on with
      | _ m ih =>
        intro d hm
        rw [getLatestChangesetVersionCommit]
        cases hq : queryDeletionCommit history d with
        | some c => simp
        | none =>
          by_cases hlt : d < history.length
          · simp only [hlt, dif_pos]
            by_cases hfull : history.length ≤ d + 50
            · have h2 := hfull0 history (d + 50) hfull
              show 50 * ((getLatestChangesetVersionCommit history (d + 50)).2 + 1) ≤
                history.length - d + 50
              omega
            · have h3 := ih (history.length - (d + 50)) (by omega) (d + 50) rfl
              show 50 * ((getLatestChangesetVersionCommit history (d + 50)).2 + 1) ≤
                history.length - d + 50
              omega
          · simp only [hlt, dif_neg]
            simp
    exact H (history.length - depth) depth rfl

/-- Witness for `getLatestChangesetVersionCommit_spec`: a full clone with no
matching commit returns none without deepening; the general parts applied
to a shallow clone whose match is 120 commits deep. -/
theorem getLatestChangesetVersionCommit_spec_witness :
    getLatestChangesetVersionCommit [false, false, false] 3 = (none, 0) ∧
    (getLatestChangesetVersionCommit (List.replicate 120 false ++ [true]) 1).1 =
      firstTrueIdx (List.replicate 120 false ++ [true]) ∧
    50 * (getLatestChangesetVersionCommit (List.replicate 120 false ++ [true]) 1).2 ≤
      (List.replicate 120 false ++ [true]).length - 1 + 50 :=
  ⟨getLatestChangesetVersionCommit_spec.1 [false, false, false] 3 (by decide) (by decide),
    getLatestChangesetVersionCommit_spec.2.1 (List.replicate 120 false ++ [true]) 1,
    getLatestChangesetVersionCommit_spec.2.2 (List.replicate 120 false ++ [true]) 1⟩

lemma matchVersionHeader_not_hash {a : Char} (h : a ≠ '#') (t : List Char) :
    matchVersionHeader (a :: t) = none := by
  match t with
  | [] => rfl
  | [b] => rfl
  | b :: sp :: r => simp [matchVersionHeader, h]

lemma matchVersionHeader_110 (X : List Char) :
    matchVersionHeader ('#' :: '#' :: ' ' :: '1' :: '.' :: '1' :: '.' :: '0' :: '\n' :: X) =
      some 8 := by
  have hd1 : isDigitC '1' = true := by decide
  have hd0 : isDigitC '0' = true := by decide
  have hdot : isDigitC '.' = false := by decide
  have hnl : isDigitC '\n' = false := by decide
  simp [matchVersionHeader, List.takeWhile_cons, hd1, hd0, hdot, hnl]

lemma matchVersionHeader_100 (X : List Char) :
    matchVersionHeader ('#' :: '#' :: ' ' :: '1' :: '.' :: '0' :: '.' :: '0' :: '\n' :: X) =
      some 8 := by
  have hd1 : isDigitC '1' = true := by decide
  have hd0 : isDigitC '0' = true := by decide
  have hdot : isDigitC '.' = false := by decide
  have hnl : isDigitC '\n' = false := by decide
  simp [matchVersionHeader, List.takeWhile_cons, hd1, hd0, hdot, hnl]

lemma goHeader_append {region tail : List Char} :
    ∀ (a : Bool) (i : Nat), regionHeaderFree a region tail = true →
    goHeader (region ++ tail) i a = goHeader tail (i + region.length) (anchAfter a region) := by
  induction region with
  | nil => intro a i _; simp [anchAfter]
  | cons c rest ih =>
    intro a i h
    rw [regionHeaderFree] at h
    simp only [Bool.and_eq_true, Bool.or_eq_true, Bool.not_eq_eq_eq_not, Bool.not_true,
      Option.isNone_iff_eq_none] at h
    simp only [List.cons_append, goHeader, List.append_eq]
    have hstep : goHeader (rest ++ tail) (i + 1) (isNL c) =
        goHeader tail (i + (c :: rest).length) (anchAfter a (c :: rest)) := by
      rw [ih (isNL c) (i + 1) h.2]
      have harith : i + 1 + rest.length = i + (c :: rest).length := by
        simp
        omega
      rw [harith]
      rfl
    cases ha : a with
    | false =>
      rw [ha] at hstep
      simpa using hstep
    | true =>
      rw [ha] at h hstep
      rcases h.1 with h1 | h1
      · cases h1
      · simp only [if_true]
        rw [List.cons_append] at h1
        rw [h1]
        exact hstep

lemma lastNLIdx_lt {l : List Char} : ∀ {i : Nat}, dollarK.lastNLIdx l = some i → i < l.length := by
  induction l with
  | nil => intro i h; cases h
  | cons c rest ih =>
    intro i h
    rw [dollarK.lastNLIdx] at h
    cases hr : dollarK.lastNLIdx rest with
    | some j =>
      rw [hr] at h
      cases h
      have := ih hr
      simp
      omega
    | none =>
      rw [hr] at h
      by_cases hc : isNL c
      · rw [if_pos hc] at h
        cases h
        simp
      · rw [if_neg hc] at h
        cases h

lemma dollarK_le (cs : List Char) : dollarK cs ≤ (cs.takeWhile isWS).length := by
  rw [dollarK]
  by_cases he : (cs.takeWhile isWS).length = cs.length
  · simp [he]
  · simp only [he, if_false]
    cases hl : dollarK.lastNLIdx (cs.takeWhile isWS) with
    | none => simp
    | some i =>
      simp only [Option.getD_some]
      exact le_of_lt (lastNLIdx_lt hl)

lemma take_all_ws {cs : List Char} {k : Nat} (hk : k ≤ (cs.takeWhile isWS).length) :
    ∀ c ∈ cs.take k, isWS c = true := by
  intro c hc
  have hsplit : cs.take k = (cs.takeWhile isWS).take k := by
    conv_lhs => rw [← List.takeWhile_append_dropWhile isWS cs]
    exact List.take_append_of_le_length hk
  rw [hsplit] at hc
  exact List.mem_takeWhile_imp (List.mem_of_mem_take hc)

lemma jsTrim_drop_ws : ∀ (k : Nat) (l : List Char), (∀ c ∈ l.take k, isWS c = true) →
    jsTrim (l.drop k) = jsTrim l := by
  intro k
  induction k with
  | zero => intro l _; rfl
  | succ k' ih =>
    intro l h
    cases l with
    | nil => rfl
    | cons c rest =>
      have hc : isWS c = true := h c (by simp)
      rw [List.drop_succ_cons]
      rw [ih rest (fun x hx => h x (by rw [List.take_succ_cons]; exact List.mem_cons_of_mem c hx))]
      rw [jsTrim_cons_ws hc]

lemma jsTrim_append_ws {c : Char} (h : isWS c = true) (l : List Char) :
    jsTrim (l ++ [c]) = jsTrim l := by
  rw [jsTrim, jsTrim, List.dropWhile_append]
  by_cases he : (List.dropWhile isWS l).isEmpty
  · rw [if_pos he]
    have h1 : List.dropWhile isWS [c] = [] := by
      rw [List.dropWhile_cons, h]
      simp
    rw [h1, List.isEmpty_iff.mp he]
  · rw [if_neg he]
    have h2 : (List.dropWhile isWS l ++ [c]).reverse = c :: (List.dropWhile isWS l).reverse := by
      simp
    rw [h2, List.dropWhile_cons, h]
    simp

lemma findHeaderLineMatch_110 (S' : List Char) :
    findHeaderLineMatch ('#' :: '#' :: ' ' :: '1' :: '.' :: '1' :: '.' :: '0' :: '\n' :: S') =
      some (3 + 5 + dollarK ('\n' :: S'), ['1', '.', '1', '.', '0']) := by
  have h1 : isNL '1' = false := by decide
  have h0 : isNL '0' = false := by decide
  have hdot : isNL '.' = false := by decide
  have hnl : isNL '\n' = true := by decide
  rw [findHeaderLineMatch]
  simp [matchHeaderLineAt, List.takeWhile_cons, h1, h0, hdot, hnl]

lemma findHeaderLineMatch_100 (S' : List Char) :
    findHeaderLineMatch ('#' :: '#' :: ' ' :: '1' :: '.' :: '0' :: '.' :: '0' :: '\n' :: S') =
      some (3 + 5 + dollarK ('\n' :: S'), ['1', '.', '0', '.', '0']) := by
  have h1 : isNL '1' = false := by decide
  have h0 : isNL '0' = false := by decide
  have hdot : isNL '.' = false := by decide
  have hnl : isNL '\n' = true := by decide
  rw [findHeaderLineMatch]
  simp [matchHeaderLineAt, List.takeWhile_cons, h1, h0, hdot, hnl]

lemma goHeader_skip_nl (rest2 : List Char) (i : Nat) (a : Bool) :
    goHeader ('\n' :: rest2) i a = goHeader rest2 (i + 1) true := by
  rw [goHeader]
  cases a with
  | false => rfl
  | true =>
    rw [matchVersionHeader_not_hash (by decide)]
    rfl

lemma jsTrim_wrap_nl (B : List Char) : jsTrim ('\n' :: (B ++ ['\n'])) = jsTrim B := by
  rw [jsTrim_cons_ws (by decide), jsTrim_append_ws (by decide)]

/-- **C7.**  The changelog extractor: on a document `## 1.1.0\n<body1>\n##
1.0.0\n<body2>` whose first body has no version-header line of its own, the
extracted entry is version `1.1.0` with content `trim body1` — the text
strictly between the two headers, excluding the header line itself and
trimmed; on a single-section document `## 1.0.0\n<body>` the content is
`trim body`, running to the end of the document. -/
theorem getLatestChangelogEntry_sections :
    (∀ body1 body2 : String,
      regionHeaderFree true body1.data
          ('\n' :: '#' :: '#' :: ' ' :: '1' :: '.' :: '0' :: '.' :: '0' :: '\n' :: body2.data) =
        true →
      getLatestChangelogEntry ("## 1.1.0\n" ++ body1 ++ "\n## 1.0.0\n" ++ body2) =
        some ⟨"1.1.0", String.mk (jsTrim body1.data)⟩) ∧
    (∀ body : String,
      regionHeaderFree true body.data [] = true →
      getLatestChangelogEntry ("## 1.0.0\n" ++ body) =
        some ⟨"1.0.0", String.mk (jsTrim body.data)⟩) := by
  constructor
  · intro body1 body2 hfree
    have hA9 : "## 1.1.0\n".data = ['#', '#', ' ', '1', '.', '1', '.', '0', '\n'] := by decide
    have hT : "\n## 1.0.0\n".data =
        ['\n', '#', '#', ' ', '1', '.', '0', '.', '0', '\n'] := by decide
    have hdata : ("## 1.1.0\n" ++ body1 ++ "\n## 1.0.0\n" ++ body2).data =
        '#' :: '#' :: ' ' :: '1' :: '.' :: '1' :: '.' :: '0' :: '\n' ::
          (body1.data ++
            ('\n' :: '#' :: '#' :: ' ' :: '1' :: '.' :: '0' :: '.' :: '0' :: '\n' ::
              body2.data)) := by
      show ((("## 1.1.0\n".data ++ body1.data) ++ "\n## 1.0.0\n".data) ++ body2.data) = _
      rw [hA9, hT]
      simp
    have hexec0 : execVersionHeader
        ('#' :: '#' :: ' ' :: '1' :: '.' :: '1' :: '.' :: '0' :: '\n' ::
          (body1.data ++
            ('\n' :: '#' :: '#' :: ' ' :: '1' :: '.' :: '0' :: '.' :: '0' :: '\n' ::
              body2.data))) 0 = some (0, 8) := by
      rw [execVersionHeader]
      rw [show anchorAt _ 0 = true from rfl, List.drop_zero, goHeader]
      rw [matchVersionHeader_110]
      rfl
    have hexec8 : execVersionHeader
        ('#' :: '#' :: ' ' :: '1' :: '.' :: '1' :: '.' :: '0' :: '\n' ::
          (body1.data ++
            ('\n' :: '#' :: '#' :: ' ' :: '1' :: '.' :: '0' :: '.' :: '0' :: '\n' ::
              body2.data))) 8 = some (body1.data.length + 10, 8) := by
      rw [execVersionHeader]
      have hanc : anchorAt
          ('#' :: '#' :: ' ' :: '1' :: '.' :: '1' :: '.' :: '0' :: '\n' ::
            (body1.data ++
              ('\n' :: '#' :: '#' :: ' ' :: '1' :: '.' :: '0' :: '.' :: '0' :: '\n' ::
                body2.data))) 8 = false := rfl
      rw [hanc]
      rw [show List.drop 8
          ('#' :: '#' :: ' ' :: '1' :: '.' :: '1' :: '.' :: '0' :: '\n' ::
            (body1.data ++
              ('\n' :: '#' :: '#' :: ' ' :: '1' :: '.' :: '0' :: '.' :: '0' :: '\n' ::
                body2.data))) =
          '\n' :: (body1.data ++
            ('\n' :: '#' :: '#' :: ' ' :: '1' :: '.' :: '0' :: '.' :: '0' :: '\n' ::
              body2.data)) from rfl]
      rw [goHeader_skip_nl]
      rw [goHeader_append true 9 hfree]
      rw [goHeader_skip_nl]
      rw [goHeader]
      rw [matchVersionHeader_100]
      simp only [if_true, Option.some_inj, Prod.mk.injEq]
      refine ⟨?_, trivial⟩
      simp [anchAfter]
      omega
    rw [getLatestChangelogEntry]
    rw [hdata]
    simp only [hexec0, Nat.zero_add, hexec8, Nat.sub_zero, List.drop_zero]
    have hentry : List.take (body1.data.length + 10)
        ('#' :: '#' :: ' ' :: '1' :: '.' :: '1' :: '.' :: '0' :: '\n' ::
          (body1.data ++
            ('\n' :: '#' :: '#' :: ' ' :: '1' :: '.' :: '0' :: '.' :: '0' :: '\n' ::
              body2.data))) =
        '#' :: '#' :: ' ' :: '1' :: '.' :: '1' :: '.' :: '0' :: '\n' ::
          (body1.data ++ ['\n']) := by
      rw [show ('#' :: '#' :: ' ' :: '1' :: '.' :: '1' :: '.' :: '0' :: '\n' ::
          (body1.data ++
            ('\n' :: '#' :: '#' :: ' ' :: '1' :: '.' :: '0' :: '.' :: '0' :: '\n' ::
              body2.data)) : List Char) =
          (['#', '#', ' ', '1', '.', '1', '.', '0', '\n'] : List Char) ++
            (body1.data ++
              ('\n' :: '#' :: '#' :: ' ' :: '1' :: '.' :: '0' :: '.' :: '0' :: '\n' ::
                body2.data)) from rfl]
      rw [show body1.data.length + 10 =
          (['#', '#', ' ', '1', '.', '1', '.', '0', '\n'] : List Char).length +
            (body1.data.length + 1) by simp; omega]
      rw [List.take_append]
      rw [show body1.data.length + 1 = body1.data.length + 1 from rfl]
      rw [List.take_append]
      simp
    rw [hentry]
    simp only [findHeaderLineMatch_110]
    have hdrop : List.drop (3 + 5 + dollarK ('\n' :: (body1.data ++ ['\n'])))
        ('#' :: '#' :: ' ' :: '1' :: '.' :: '1' :: '.' :: '0' :: '\n' ::
          (body1.data ++ ['\n'])) =
        List.drop (dollarK ('\n' :: (body1.data ++ ['\n']))) ('\n' :: (body1.data ++ ['\n'])) := by
      rw [show ('#' :: '#' :: ' ' :: '1' :: '.' :: '1' :: '.' :: '0' :: '\n' ::
          (body1.data ++ ['\n']) : List Char) =
          (['#', '#', ' ', '1', '.', '1', '.', '0'] : List Char) ++
            ('\n' :: (body1.data ++ ['\n'])) from rfl]
      rw [show 3 + 5 + dollarK ('\n' :: (body1.data ++ ['\n'])) =
          (['#', '#', ' ', '1', '.', '1', '.', '0'] : List Char).length +
            dollarK ('\n' :: (body1.data ++ ['\n'])) by simp]
      rw [List.drop_append]
    rw [hdrop]
    rw [jsTrim_drop_ws _ _ (take_all_ws (dollarK_le ('\n' :: (body1.data ++ ['\n']))))]
    rw [jsTrim_wrap_nl]
  · intro body hfree
    have hA9 : "## 1.0.0\n".data = ['#', '#', ' ', '1', '.', '0', '.', '0', '\n'] := by decide
    have hdata : ("## 1.0.0\n" ++ body).data =
        '#' :: '#' :: ' ' :: '1' :: '.' :: '0' :: '.' :: '0' :: '\n' :: body.data := by
      show ("## 1.0.0\n".data ++ body.data) = _
      rw [hA9]
      simp
    have hexec0 : execVersionHeader
        ('#' :: '#' :: ' ' :: '1' :: '.' :: '0' :: '.' :: '0' :: '\n' :: body.data) 0 =
        some (0, 8) := by
      rw [execVersionHeader]
      rw [show anchorAt _ 0 = true from rfl, List.drop_zero, goHeader]
      rw [matchVersionHeader_100]
      rfl
    have hexec8 : execVersionHeader
        ('#' :: '#' :: ' ' :: '1' :: '.' :: '0' :: '.' :: '0' :: '\n' :: body.data) 8 =
        none := by
      rw [execVersionHeader]
      have hanc : anchorAt
          ('#' :: '#' :: ' ' :: '1' :: '.' :: '0' :: '.' :: '0' :: '\n' :: body.data) 8 =
          false := rfl
      rw [hanc]
      rw [show List.drop 8
          ('#' :: '#' :: ' ' :: '1' :: '.' :: '0' :: '.' :: '0' :: '\n' :: body.data) =
          '\n' :: body.data from rfl]
      rw [goHeader_skip_nl]
      rw [show (body.data : List Char) = body.data ++ [] by simp]
      rw [goHeader_append true 9 (by simpa using hfree)]
      rfl
    rw [getLatestChangelogEntry]
    rw [hdata]
    simp only [hexec0, Nat.zero_add, hexec8, Nat.sub_zero, List.drop_zero]
    have hentry : List.take
        (('#' :: '#' :: ' ' :: '1' :: '.' :: '0' :: '.' :: '0' :: '\n' :: body.data).length)
        ('#' :: '#' :: ' ' :: '1' :: '.' :: '0' :: '.' :: '0' :: '\n' :: body.data) =
        '#' :: '#' :: ' ' :: '1' :: '.' :: '0' :: '.' :: '0' :: '\n' :: body.data :=
      List.take_length _
    rw [hentry]
    simp only [findHeaderLineMatch_100]
    have hdrop : List.drop (3 + 5 + dollarK ('\n' :: body.data))
        ('#' :: '#' :: ' ' :: '1' :: '.' :: '0' :: '.' :: '0' :: '\n' :: body.data) =
        List.drop (dollarK ('\n' :: body.data)) ('\n' :: body.data) := by
      rw [show ('#' :: '#' :: ' ' :: '1' :: '.' :: '0' :: '.' :: '0' :: '\n' ::
          body.data : List Char) =
          (['#', '#', ' ', '1', '.', '0', '.', '0'] : List Char) ++ ('\n' :: body.data) from rfl]
      rw [show 3 + 5 + dollarK ('\n' :: body.data) =
          (['#', '#', ' ', '1', '.', '0', '.', '0'] : List Char).length +
            dollarK ('\n' :: body.data) by simp]
      rw [List.drop_append]
    rw [hdrop]
    rw [jsTrim_drop_ws _ _ (take_all_ws (dollarK_le ('\n' :: body.data)))]
    rw [jsTrim_cons_ws (by decide)]

/-- Witness for `getLatestChangelogEntry_sections`: the spec's two-section
example extracts version `1.1.0` with the content strictly between the
headers, and a single-section document runs to end of document. -/
theorem getLatestChangelogEntry_sections_witness :
    getLatestChangelogEntry "## 1.1.0\n\n- change A\n\n## 1.0.0\n\n- old stuff\n" =
      some ⟨"1.1.0", "- change A"⟩ ∧
    getLatestChangelogEntry "## 1.0.0\n\n- only entry\n" =
      some ⟨"1.0.0", "- only entry"⟩ := by
  constructor
  · have h := getLatestChangelogEntry_sections.1 "\n- change A\n" "\n- old stuff\n" (by decide)
    have e : ("## 1.1.0\n" ++ "\n- change A\n" ++ "\n## 1.0.0\n" ++ "\n- old stuff\n" : String) =
        "## 1.1.0\n\n- change A\n\n## 1.0.0\n\n- old stuff\n" := by decide
    rw [e] at h
    rw [h]
    decide
  · have h := getLatestChangelogEntry_sections.2 "\n- only entry\n" (by decide)
    have e : ("## 1.0.0\n" ++ "\n- only entry\n" : String) = "## 1.0.0\n\n- only entry\n" := by
      decide
    rw [e] at h
    rw [h]
    decide

end ChangesetsAction
